import Mathlib

/-!
Shallow embedding of `create_deployment.py` from the `t128-deploy-lab`
repository, with theorems settling the specification's claims about the
deployment registry, the VM provisioner, the network reconciler and the
VM destruction sequence.

Modelling conventions: Python exceptions and fatal exits are represented
by `Except`/explicit error fields; remote Proxmox calls are recorded as
explicit actions; machine-independent data (names, option dictionaries)
keep their source representation (strings, ordered key/value lists).
-/

/-- Values produced by `yaml.safe_load` on the node's description field.
Mappings keep their key insertion order, as Python dicts do. -/
inductive Yaml where
  | null : Yaml
  | nat : Nat → Yaml
  | str : String → Yaml
  | list : List Yaml → Yaml
  | dict : List (String × Yaml) → Yaml

/-- Failure conditions of the embedded code.  `attrErr`, `typeErr`,
`yamlErr` and `unicodeErr` stand for the Python exceptions
`AttributeError`, `TypeError`, `yaml.YAMLError` and `UnicodeEncodeError`
escaping uncaught (terminating the process with a traceback).

Modelled from the spec: `fatal msg` stands for a call to `error(...)`
from `lib/log.py`, a module of this repository that is not among the
sources; per the spec's exit-behaviour contract it prints a descriptive
message and terminates the run immediately with a non-zero status.  We
model the message as the `print`-style space-joined arguments. -/
inductive PyError where
  | attrErr
  | typeErr
  | yamlErr
  | unicodeErr
  | fatal (msg : String)
deriving DecidableEq

/-- Stored node description field, as seen through `yaml.safe_load`:
`absent` covers a missing or `None` description (where `safe_load`
raises `AttributeError`), `parseError` a description that is not
syntactically valid YAML (the parser raises a `ScannerError`, which
`get_node_deployments` does not catch), and `value v` a successful
parse producing `v` (an empty description parses to `Yaml.null`). -/
inductive Desc where
  | absent
  | parseError
  | value (v : Yaml)

/-- Embeds `ProxmoxNode.get_node_deployments` (create_deployment.py:50-56):
`yaml.safe_load(description.get('description')).get('deployments')` with
only `AttributeError` caught and turned into `[]`.  A YAML parse error
propagates; a parsed mapping yields its `deployments` entry (Python's
`dict.get` returns `None`, i.e. `Yaml.null`, when the key is missing);
any non-mapping parse result has no `.get`, raising `AttributeError`,
which is caught. -/
def get_node_deployments : Desc → Except PyError Yaml
  | .absent => .ok (.list [])
  | .parseError => .error .yamlErr
  | .value (.dict kvs) =>
      .ok (((kvs.reverse.find? (fun p => p.1 == "deployments")).map (fun p => p.2)).getD .null)
  | .value _ => .ok (.list [])

/-- Python mapping check: `toDict v` is the pair list of `v` when `v` is a
mapping (usable in `{**a, **b}`), and `none` otherwise. -/
def toDict : Yaml → Option (List (String × Yaml))
  | .dict kvs => some kvs
  | _ => none

/-- Embeds `dict(functools.reduce(lambda a, b: {**a, **b}, node_deployments))`
(create_deployment.py:305): `some pairs` when the expression evaluates to a
dict, `none` when it raises `TypeError` (a non-iterable operand, an empty
list, a `{**a, **b}` on a non-mapping element, or `dict()` applied to the
sole non-mapping element of a singleton list).  Hand-edited singleton
corners where Python's `dict()` would instead succeed (a list of pairs) or
raise `ValueError` (a one-character string element) are outside the
modelled state space; no theorem's domain touches them. -/
def buildDict : Yaml → Option (List (String × Yaml))
  | .list [] => none
  | .list (x :: xs) => ((x :: xs).mapM toDict).map List.flatten
  | _ => none

/-- Lookup in a Python dict built from an ordered list of key/value pairs:
later occurrences of a key override earlier ones. -/
def keyLookup (kvs : List (String × Yaml)) (k : String) : Option Yaml :=
  (kvs.reverse.find? (fun p => p.1 == k)).map (fun p => p.2)

/-- Python `len` on a yaml value (`TypeError` on `None` and numbers). -/
def pyLen : Yaml → Except PyError Nat
  | .list xs => .ok xs.length
  | .str s => .ok s.length
  | .dict kvs => .ok kvs.length
  | _ => .error .typeErr

/-- Python `.append` on a yaml value (`AttributeError` unless a list). -/
def pyAppend : Yaml → Yaml → Except PyError Yaml
  | .list xs, v => .ok (.list (xs ++ [v]))
  | _, _ => .error .attrErr

/-- Result of the registry-resolution section of `main`
(create_deployment.py:303-317).  `outcome` is the value bound to
`multiplier` (or the terminating error); `writes` lists the arguments of
the `set_node_deployments` calls performed, in order. -/
structure RegRun where
  outcome : Except PyError Yaml
  writes : List Yaml

/-- Embeds create_deployment.py:303-317: read the node deployments, build
the name-to-slot dict (`TypeError` recovered as `{}`), look up the
deployment name; on a miss, fail fatally under `--remove`, otherwise
allocate `len(node_deployments) + 1`, append the new record and persist
the whole list. -/
def mainRegistry (hostname : String) (d : Desc) (deploymentName : String)
    (remove : Bool) : RegRun :=
  match get_node_deployments d with
  | .error e => ⟨.error e, []⟩
  | .ok nd =>
    match keyLookup ((buildDict nd).getD []) deploymentName with
    | some m => ⟨.ok m, []⟩
    | none =>
      if remove then
        ⟨.error (.fatal ("Deployment \"" ++ deploymentName ++
          "\" was not implemented on host \"" ++ hostname ++ "\".")), []⟩
      else
        match pyLen nd with
        | .error e => ⟨.error e, []⟩
        | .ok n =>
          match pyAppend nd (.dict [(deploymentName, .nat (n + 1))]) with
          | .error e => ⟨.error e, []⟩
          | .ok nd2 => ⟨.ok (.nat (n + 1)), [nd2]⟩

/-- Well-formed persisted registry: the `deployments` list as
`set_node_deployments` writes it, one singleton mapping per record. -/
def regYaml (r : List (String × Nat)) : Yaml :=
  .list (r.map (fun p => .dict [(p.1, .nat p.2)]))

/-- Description field holding a well-formed registry, as `yaml.dump`
round-trips it. -/
def regDesc (r : List (String × Nat)) : Desc :=
  .value (.dict [("deployments", regYaml r)])

/-- Slot of a name in a record list under Python dict-merge semantics
(the last record for a name wins). -/
def lookupLast (r : List (String × Nat)) (k : String) : Option Nat :=
  (r.reverse.find? (fun p => p.1 == k)).map (fun p => p.2)

/-- Description field after a run: `set_node_deployments` dumps
`{'deployments': nd}` into the description, so the next run parses back
exactly that mapping; with no write the field is unchanged. -/
def descAfter (d : Desc) (run : RegRun) : Desc :=
  match run.writes.getLast? with
  | some w => .value (.dict [("deployments", w)])
  | none => d

theorem mapM_toDict_regList (r : List (String × Nat)) :
    (r.map (fun p => Yaml.dict [(p.1, .nat p.2)])).mapM toDict
      = some (r.map (fun p => [(p.1, Yaml.nat p.2)])) := by
  induction r with
  | nil => rfl
  | cons p r ih =>
    rw [List.map_cons, List.mapM_cons, ih]
    rfl

theorem flatten_map_singleton {α β : Type} (f : α → β) (l : List α) :
    (l.map (fun a => [f a])).flatten = l.map f := by
  induction l with
  | nil => rfl
  | cons a l ih => simp [ih]

theorem buildDict_regYaml (r : List (String × Nat)) :
    buildDict (regYaml r)
      = if r.length = 0 then none
        else some (r.map (fun p => (p.1, Yaml.nat p.2))) := by
  cases r with
  | nil => rfl
  | cons p r =>
    show (((p :: r).map (fun p => Yaml.dict [(p.1, .nat p.2)])).mapM toDict).map List.flatten = _
    rw [mapM_toDict_regList]
    simp [flatten_map_singleton (fun p : String × Nat => (p.1, Yaml.nat p.2))]

theorem find?_regList (l : List (String × Nat)) (k : String) :
    List.find? (fun p => p.1 == k) (l.map (fun p => (p.1, Yaml.nat p.2)))
      = (List.find? (fun p => p.1 == k) l).map (fun p => (p.1, Yaml.nat p.2)) := by
  induction l with
  | nil => rfl
  | cons p l ih =>
    by_cases h : p.1 == k
    · simp [List.find?, h]
    · simp only [List.map_cons, List.find?]
      rw [Bool.not_eq_true] at h
      simp only [h, ih]

theorem keyLookup_regList (r : List (String × Nat)) (k : String) :
    keyLookup (r.map (fun p => (p.1, Yaml.nat p.2))) k
      = (lookupLast r k).map Yaml.nat := by
  unfold keyLookup lookupLast
  rw [← List.map_reverse, find?_regList]
  cases List.find? (fun p => p.1 == k) r.reverse <;> rfl

theorem get_node_deployments_regDesc (r : List (String × Nat)) :
    get_node_deployments (regDesc r) = .ok (regYaml r) := by
  simp [get_node_deployments, regDesc]

theorem keyLookup_buildDict_regYaml (r : List (String × Nat)) (name : String) :
    keyLookup ((buildDict (regYaml r)).getD []) name
      = (lookupLast r name).map Yaml.nat := by
  cases r with
  | nil => rfl
  | cons p rs =>
    rw [buildDict_regYaml]
    simp only [List.length_cons, Nat.succ_ne_zero, if_false, Option.getD_some]
    exact keyLookup_regList (p :: rs) name

/-- Evaluation of the registry step on a well-formed persisted registry:
a recorded name resolves to its slot with no write. -/
theorem mainRegistry_found (hostname : String) (r : List (String × Nat))
    (name : String) (remove : Bool) (s : Nat) (hlk : lookupLast r name = some s) :
    mainRegistry hostname (regDesc r) name remove = ⟨.ok (.nat s), []⟩ := by
  unfold mainRegistry
  rw [get_node_deployments_regDesc]
  show (match keyLookup ((buildDict (regYaml r)).getD []) name with
        | some m => RegRun.mk (.ok m) []
        | none => _) = _
  rw [keyLookup_buildDict_regYaml, hlk]
  rfl

/-- Evaluation of the registry step on a well-formed persisted registry:
an unrecorded name in create mode is appended with slot count + 1 and the
full updated registry is written back. -/
theorem mainRegistry_missing_create (hostname : String) (r : List (String × Nat))
    (name : String) (hlk : lookupLast r name = none) :
    mainRegistry hostname (regDesc r) name false
      = ⟨.ok (.nat (r.length + 1)), [regYaml (r ++ [(name, r.length + 1)])]⟩ := by
  unfold mainRegistry
  rw [get_node_deployments_regDesc]
  show (match keyLookup ((buildDict (regYaml r)).getD []) name with
        | some m => RegRun.mk (.ok m) []
        | none => _) = _
  rw [keyLookup_buildDict_regYaml, hlk]
  show (match pyLen (regYaml r) with
        | .error e => RegRun.mk (.error e) []
        | .ok n =>
          match pyAppend (regYaml r) (.dict [(name, .nat (n + 1))]) with
          | .error e => RegRun.mk (.error e) []
          | .ok nd2 => RegRun.mk (.ok (.nat (n + 1))) [nd2]) = _
  have hlen : pyLen (regYaml r) = .ok r.length := by
    simp [pyLen, regYaml]
  rw [hlen]
  show (match pyAppend (regYaml r) (.dict [(name, .nat (r.length + 1))]) with
        | .error e => RegRun.mk (.error e) []
        | .ok nd2 => RegRun.mk (.ok (.nat (r.length + 1))) [nd2]) = _
  have happ : pyAppend (regYaml r) (.dict [(name, .nat (r.length + 1))])
      = .ok (regYaml (r ++ [(name, r.length + 1)])) := by
    simp [pyAppend, regYaml]
  rw [happ]

theorem lookupLast_append_self (r : List (String × Nat)) (name : String) (s : Nat) :
    lookupLast (r ++ [(name, s)]) name = some s := by
  simp [lookupLast, List.reverse_append]

/-- C1: on a well-formed persisted registry, a name already present
resolves to its recorded slot with no write; an absent name is appended
with slot `(count of existing records) + 1`; and re-resolving the same
name against the resulting persisted registry (a second run) returns the
same slot and performs no write, leaving the records unchanged. -/
theorem c1_slot_resolution_stable (hostname : String) (r : List (String × Nat))
    (name : String) :
    (∀ s, lookupLast r name = some s →
      mainRegistry hostname (regDesc r) name false = ⟨.ok (.nat s), []⟩)
  ∧ (lookupLast r name = none →
      mainRegistry hostname (regDesc r) name false
        = ⟨.ok (.nat (r.length + 1)), [regYaml (r ++ [(name, r.length + 1)])]⟩)
  ∧ ((mainRegistry hostname
        (descAfter (regDesc r) (mainRegistry hostname (regDesc r) name false))
        name false).outcome
      = (mainRegistry hostname (regDesc r) name false).outcome
    ∧ (mainRegistry hostname
        (descAfter (regDesc r) (mainRegistry hostname (regDesc r) name false))
        name false).writes = []) := by
  refine ⟨fun s hs => mainRegistry_found hostname r name false s hs,
    fun hn => mainRegistry_missing_create hostname r name hn, ?_⟩
  cases hlk : lookupLast r name with
  | some s =>
    rw [mainRegistry_found hostname r name false s hlk]
    rw [show descAfter (regDesc r) ⟨.ok (.nat s), []⟩ = regDesc r from rfl]
    rw [mainRegistry_found hostname r name false s hlk]
    exact ⟨rfl, rfl⟩
  | none =>
    rw [mainRegistry_missing_create hostname r name hlk]
    rw [show descAfter (regDesc r)
        (RegRun.mk (.ok (.nat (r.length + 1))) [regYaml (r ++ [(name, r.length + 1)])])
        = regDesc (r ++ [(name, r.length + 1)]) from rfl]
    rw [mainRegistry_found hostname (r ++ [(name, r.length + 1)]) name false
      (r.length + 1) (lookupLast_append_self r name (r.length + 1))]
    exact ⟨rfl, rfl⟩

theorem c1_slot_resolution_stable_witness :
    mainRegistry "pve" (regDesc [("a", 1)]) "a" false = ⟨.ok (.nat 1), []⟩
  ∧ mainRegistry "pve" (regDesc [("a", 1)]) "b" false
      = ⟨.ok (.nat 2), [regYaml [("a", 1), ("b", 2)]]⟩ :=
  ⟨(c1_slot_resolution_stable "pve" [("a", 1)] "a").1 1 rfl,
   (c1_slot_resolution_stable "pve" [("a", 1)] "b").2.1 rfl⟩

/-- Dictionary lookup for Python dicts with string values, `d.get(k)` /
`d[k]` on a hit. -/
def dictGet (d : List (String × String)) (k : String) : Option String :=
  (d.find? (fun p => p.1 == k)).map (fun p => p.2)

/-- Python `k in d`. -/
def hasKey (d : List (String × String)) (k : String) : Bool :=
  d.any (fun p => p.1 == k)

/-- Python `d[k] = v`: replace the value in place when the key is
present, append otherwise (insertion order preserved). -/
def dictSet (d : List (String × String)) (k v : String) : List (String × String) :=
  if hasKey d k then d.map (fun p => if p.1 == k then (k, v) else p)
  else d ++ [(k, v)]

/-- Python `del d[k]`. -/
def dictDel (d : List (String × String)) (k : String) : List (String × String) :=
  d.filter (fun p => !(p.1 == k))

/-- Embeds `vm_options = deployment_defaults.copy();
vm_options.update(vm_overrides)` (create_deployment.py:194-195).  Option
values are modelled as strings; non-string values never flow into the
observed operations (the `net*` scans and the applied options) except
through `vmid`, which is handled separately. -/
def mergeOpts (base overrides : List (String × String)) : List (String × String) :=
  overrides.foldl (fun d kv => dictSet d kv.1 kv.2) base

/-- A network entry of the deployment description: a numeric token or an
explicit bridge-name string. -/
inductive NetTok where
  | num (n : Nat)
  | str (s : String)
deriving DecidableEq

/-- One VM entry of the deployment description. -/
structure VmSpec where
  id : Nat
  name : String
  template : Option String
  options : List (String × String)
  networks : List NetTok
deriving DecidableEq

/-- The deployment description's name and global defaults. -/
structure Deployment where
  name : String
  globalOptions : List (String × String)
  globalNetworks : List NetTok
deriving DecidableEq

/-- Command-line arguments consumed by `create_vm`. -/
structure DeployArgs where
  nicType : String
  force : Bool
  forceDelete : Bool
  autostart : Bool
deriving DecidableEq

/-- Host state visible through the Proxmox API: the qemu VM listing
(pairs of `vmid` and `name`, also answering the existence and name
queries of `exists`/`get_name`) and the bridge interface names. -/
structure Host where
  vms : List (Nat × String)
  networks : List String
deriving DecidableEq

/-- Remote mutating calls recorded by the embedding, in order. -/
inductive RemoteAction where
  | createNetwork (iface : String) (descr : String)
  | commitNetworks
  | destroyVm (hostId : Nat)
  | cloneVm (templateId : Nat) (hostId : Nat)
  | setOptions (hostId : Nat) (options : List (String × String))
  | startVm (hostId : Nat)
deriving DecidableEq

/-- Result of a `create_vm` call: the remote calls performed and the
terminating error, if any. -/
structure ProvisionRun where
  actions : List RemoteAction
  error : Option PyError
deriving DecidableEq

/-- Python `s.startswith(pre)`.  Python strings are character sequences,
so the character-level prefix test is the faithful model. -/
def pyStartsWith (s pre : String) : Bool := pre.data.isPrefixOf s.data

/-- Splitter for Python `s.split(',')` (the source only ever splits on a
comma): split the character list at every comma. -/
def pySplitCommaAux : List Char → List Char → List (List Char)
  | [], cur => [cur.reverse]
  | c :: rest, cur =>
    if c = ',' then cur.reverse :: pySplitCommaAux rest []
    else pySplitCommaAux rest (c :: cur)

/-- Python `s.split(',')`. -/
def pySplitComma (s : String) : List String :=
  (pySplitCommaAux s.data []).map String.mk

/-- Embeds `ProxmoxNode.get_network_name` (create_deployment.py:65-72):
an `int` token maps to `vmbr<base_id + token>`, a `str` token must
already start with `vmbr`; anything else reaches the
`error('Unexpected type', ...)` line (whose `__func__` argument would
itself raise `NameError` - either way the run dies), modelled as
`none`. -/
def netName (base : Nat) : NetTok → Option String
  | .num n => some ("vmbr" ++ toString (base + n))
  | .str s => if pyStartsWith s "vmbr" then some s else none

/-- Embeds `bridge = network_name.split(',')[0]`
(create_deployment.py:226). -/
def bridgeOf (nname : String) : String := (pySplitComma nname).headD ""

/-- Embeds the per-option test of create_deployment.py:228: the option
has a `net`-prefixed key and its comma-separated value parts contain
`bridge=<b>`. -/
def isBound (b : String) (kv : String × String) : Bool :=
  pyStartsWith kv.1 "net" && (pySplitComma kv.2).contains ("bridge=" ++ b)

/-- Key `net<i>` of a network option. -/
def netKey (i : Nat) : String := "net" ++ toString i

/-- Embeds the `while key.format(i) in vm_options: i += 1` scan
(create_deployment.py:210-213).  The source loop is unbounded but stops
at the first missing index; a dict with `n` keys always has a free index
in `[0, n]`, so fuel `n + 1` realises the same first free index. -/
def firstFreeNetAux (opts : List (String × String)) : Nat → Nat → Nat
  | 0, i => i
  | fuel + 1, i =>
    if hasKey opts (netKey i) then firstFreeNetAux opts fuel (i + 1) else i

/-- First `i` with `net<i>` not among the option keys. -/
def firstFreeNet (opts : List (String × String)) : Nat :=
  firstFreeNetAux opts (opts.length + 1) 0

/-- Loop state of the network-attachment section of `create_vm`
(create_deployment.py:209-233): current options, remote calls so far,
the `new_network` flag, the cached host bridge list, the running index
`i`, and the fatal error that stopped the loop, if any. -/
structure NetAcc where
  opts : List (String × String)
  acts : List RemoteAction
  newNet : Bool
  hostNets : List String
  idx : Nat
  failed : Option String
deriving DecidableEq

/-- Embeds the `for network in networks` loop of `create_vm`
(create_deployment.py:217-233): resolve each network's bridge name;
create the bridge when missing (after `confirm`, auto-approved under
`--force`, the oracle `con` answering the prompt otherwise) and refresh
the cached list; abort fatally when creation is declined or the token
shape is unexpected; skip the attachment when some existing `net*`
option already targets the bridge; otherwise assign option `net<i>`.
The index `i` advances once per processed network either way. -/
def addNetworks (nicType depName : String) (force : Bool) (con : String → Bool)
    (base : Nat) (acc : NetAcc) : List NetTok → NetAcc
  | [] => acc
  | tok :: rest =>
    match netName base tok with
    | none => { acc with failed := some "Unexpected type" }
    | some nname =>
      let created : Option NetAcc :=
        if acc.hostNets.contains nname then some acc
        else if force || con ("Network " ++ nname ++ " does not exist. Create it") then
          some { acc with
            acts := acc.acts ++
              [.createNetwork nname ("Network is part of deployment " ++ depName)],
            hostNets := acc.hostNets ++ [nname],
            newNet := true }
        else none
      match created with
      | none => { acc with failed := some "Exiting due to missing network." }
      | some acc1 =>
        let bridge := bridgeOf nname
        let alreadyAdded := acc1.opts.any (isBound bridge)
        let opts2 := if alreadyAdded then acc1.opts
          else dictSet acc1.opts (netKey acc1.idx) (nicType ++ ",bridge=" ++ bridge)
        addNetworks nicType depName force con base
          { acc1 with opts := opts2, idx := acc1.idx + 1 } rest

/-- Replacement of every non-overlapping occurrence of a (non-empty)
pattern, left to right; the fuel is the subject length, enough since
every step consumes at least one character. -/
def pyReplaceAux (pat repl : List Char) : List Char → Nat → List Char
  | s, 0 => s
  | s, fuel + 1 =>
    match s with
    | [] => []
    | c :: rest =>
      if pat.isPrefixOf s ∧ pat ≠ [] then
        repl ++ pyReplaceAux pat repl (s.drop pat.length) fuel
      else c :: pyReplaceAux pat repl rest fuel

/-- Python `s.replace(pat, repl)`. -/
def pyReplace (s pat repl : String) : String :=
  String.mk (pyReplaceAux pat.data repl.data s.data s.data.length)

/-- Embeds the `.format(name=..., id=..., deployment=...)` call of
create_deployment.py:200-204 for the modelled template subset: plain
`{name}`, `{id}` and `{deployment}` placeholders, substituted in that
order.  Python's richer format-spec syntax (and its `KeyError` on other
fields) is outside the modelled space. -/
def renderSerial (tmpl vmName : String) (vmId : Nat) (depName : String) : String :=
  pyReplace (pyReplace (pyReplace tmpl "{name}" vmName) "{id}" (toString vmId))
    "{deployment}" depName

/-- Base64 alphabet (RFC 4648), as used by Python's `base64.b64encode`. -/
def b64alphabet : List Char :=
  "ABCDEFGHIJKLMNOPQRSTUVWXYZabcdefghijklmnopqrstuvwxyz0123456789+/".data

/-- Character of a 6-bit group. -/
def b64c (n : Nat) : Char := b64alphabet.getD n '?'

/-- Index of a base64 character, `none` for a non-alphabet character. -/
def b64d (c : Char) : Option Nat :=
  let i := b64alphabet.indexOf c
  if i < 64 then some i else none

/-- Embeds `base64.b64encode` on a byte list (3-byte groups to 4
characters, `=`-padded tail). -/
def b64encodeList : List Nat → List Char
  | [] => []
  | [a] => [b64c (a / 4), b64c (a % 4 * 16), '=', '=']
  | [a, b] => [b64c (a / 4), b64c (a % 4 * 16 + b / 16), b64c (b % 16 * 4), '=']
  | a :: b :: c :: rest =>
    b64c (a / 4) :: b64c (a % 4 * 16 + b / 16) :: b64c (b % 16 * 4 + c / 64) ::
      b64c (c % 64) :: b64encodeList rest

/-- String form of the base64 encoding, `b64encode(...).decode('ascii')`. -/
def b64encode (bs : List Nat) : String := String.mk (b64encodeList bs)

/-- Specification-side base64 decoder, used to state the round-trip
claim about the encoded SMBIOS payload. -/
def b64decodeList : List Char → Option (List Nat)
  | c1 :: c2 :: c3 :: c4 :: rest =>
    match b64d c1, b64d c2 with
    | some a1, some a2 =>
      if rest.isEmpty && (c3 == '=') && (c4 == '=') then
        some [a1 * 4 + a2 / 16]
      else if rest.isEmpty && (c4 == '=') then
        match b64d c3 with
        | some a3 => some [a1 * 4 + a2 / 16, a2 % 16 * 16 + a3 / 4]
        | none => none
      else
        match b64d c3, b64d c4 with
        | some a3, some a4 =>
          (b64decodeList rest).map
            (fun bs => (a1 * 4 + a2 / 16) :: (a2 % 16 * 16 + a3 / 4) ::
              (a3 % 4 * 64 + a4) :: bs)
        | _, _ => none
    | _, _ => none
  | [] => some []
  | _ => none

/-- Decoder on strings. -/
def b64decode (s : String) : Option (List Nat) := b64decodeList s.data

/-- Byte sequence of a string's characters (its ASCII bytes when all
characters are ASCII). -/
def strBytes (s : String) : List Nat := s.data.map (fun c => c.toNat)

/-- Embeds `bytes(serial, 'ascii')`: `UnicodeEncodeError` on any
non-ASCII character. -/
def pyBytesAscii (s : String) : Option (List Nat) :=
  if s.data.all (fun c => c.toNat < 128) then some (strBytes s) else none

/-- Embeds the serial-option translation of `create_vm`
(create_deployment.py:199-207): when a `serial` option is present,
render the template, delete the raw `serial` key and store the rendered
string as a base64 SMBIOS system-serial field. -/
def applySerial (opts : List (String × String)) (vmName : String) (vmId : Nat)
    (depName : String) : Except PyError (List (String × String)) :=
  match dictGet opts "serial" with
  | none => .ok opts
  | some tmpl =>
    match pyBytesAscii (renderSerial tmpl vmName vmId depName) with
    | none => .error .unicodeErr
    | some bs =>
      .ok (dictSet (dictDel opts "serial") "smbios1"
        ("serial=" ++ b64encode bs ++ ",base64=1"))

/-- Embeds `create_vm` (create_deployment.py:190-261) as the list of
remote mutating calls it performs plus its terminating error, if any.
The `vmid` entry Python stores in `vm_options` is written first and
deleted at `set_options` without being read in between; it is modelled
as its decimal string.  The `config` parameter of the source is unused
in the function body and omitted. -/
def create_vm (host : Host) (con : String → Bool) (base : Nat) (vm : VmSpec)
    (dep : Deployment) (args : DeployArgs) : ProvisionRun :=
  let vmName := dep.name ++ "-" ++ vm.name
  let merged := mergeOpts dep.globalOptions vm.options
  let opts0 := dictSet (dictSet merged "vmid" (toString vm.id)) "name" vmName
  match applySerial opts0 vmName vm.id dep.name with
  | .error e => ⟨[], some e⟩
  | .ok opts1 =>
    let acc := addNetworks args.nicType dep.name args.force con base
      ⟨opts1, [], false, host.networks, firstFreeNet opts1, none⟩
      (dep.globalNetworks ++ vm.networks)
    match acc.failed with
    | some msg => ⟨acc.acts, some (.fatal msg)⟩
    | none =>
      let acts1 := acc.acts ++ (if acc.newNet then [RemoteAction.commitNetworks] else [])
      match vm.template with
      | none => ⟨acts1, some (.fatal ("No template name for VM provided: " ++ vmName))⟩
      | some tname =>
        match host.vms.find? (fun p => p.2 == tname) with
        | none =>
          ⟨acts1, some (.fatal ("ID could not be found for template name: " ++ tname))⟩
        | some tpl =>
          match host.vms.find? (fun p => p.1 == base + vm.id) with
          | some old =>
            if args.forceDelete then
              if old.2 == vmName then
                ⟨acts1 ++ [RemoteAction.destroyVm (base + vm.id),
                    RemoteAction.cloneVm tpl.1 (base + vm.id),
                    RemoteAction.setOptions (base + vm.id) (dictDel acc.opts "vmid")] ++
                  (if args.autostart then [RemoteAction.startVm (base + vm.id)] else []),
                  none⟩
              else
                ⟨acts1, some (.fatal ("VM names do not match. Do not delete old VM: " ++ old.2))⟩
            else
              ⟨acts1, some (.fatal ("VM already exists: " ++ vmName ++
                " (" ++ toString vm.id ++ ")"))⟩
          | none =>
            ⟨acts1 ++ [RemoteAction.cloneVm tpl.1 (base + vm.id),
                RemoteAction.setOptions (base + vm.id) (dictDel acc.opts "vmid")] ++
              (if args.autostart then [RemoteAction.startVm (base + vm.id)] else []),
              none⟩

/-- VM destruction calls. -/
inductive DAct where
  | stop
  | delete
deriving DecidableEq

/-- Embeds `ProxmoxNode.destroy` (create_deployment.py:120-129): while
the status oracle reports `running` (the k-th poll answers `statuses k`)
and fewer than 30 iterations have run, post a stop; then delete
unconditionally.  The source bounds its `while` by `i < 30`; the
structural fuel mirrors that same bound, so both guards agree. -/
def destroyGo (statuses : Nat → String) (i : Nat) : Nat → List DAct
  | 0 => [DAct.delete]
  | fuel + 1 =>
    if i < 30 ∧ statuses i = "running" then DAct.stop :: destroyGo statuses (i + 1) fuel
    else [DAct.delete]

/-- Calls performed by `destroy`, starting at iteration 0. -/
def destroyTrace (statuses : Nat → String) : List DAct := destroyGo statuses 0 30

/-- Python `str.strip(chars)`: remove characters of the given set from
both ends of the string. -/
def pyStrip (s chars : String) : String :=
  String.mk (((s.data.dropWhile (fun c => chars.data.contains c)).reverse.dropWhile
    (fun c => chars.data.contains c)).reverse)

/-- Embeds `ProxmoxNode.get_unbound_networks` (create_deployment.py:82-91)
over the host bridge list and the listed VMs' config dicts: collect
`p.strip('bridge=')` for every `bridge=`-prefixed comma-separated part
of every `net*` option value, and keep the host bridges not collected.
The source returns a Python set; this returns the matching sublist of
the host list (the same set whenever the host list has no duplicates). -/
def get_unbound_networks (hostNets : List String)
    (vmConfigs : List (List (String × String))) : List String :=
  let bound := (vmConfigs.map (fun cfg =>
    (cfg.map (fun kv =>
      if pyStartsWith kv.1 "net" then
        (pySplitComma kv.2).filterMap (fun p =>
          if pyStartsWith p "bridge=" then some (pyStrip p "bridge=") else none)
      else [])).flatten)).flatten
  hostNets.filter (fun n => !(bound.contains n))

/-- Number of `net*` options of `d` bound to bridge `b`. -/
def countBound (d : List (String × String)) (b : String) : Nat :=
  (d.filter (isBound b)).length

theorem dictGet_cons_pos (q : String × String) (d : List (String × String))
    (k : String) (hq : (q.1 == k) = true) : dictGet (q :: d) k = some q.2 := by
  unfold dictGet
  rw [@List.find?_cons_of_pos _ (fun r => r.1 == k) q d hq]
  rfl

theorem dictGet_cons_neg (q : String × String) (d : List (String × String))
    (k : String) (hq : (q.1 == k) = false) : dictGet (q :: d) k = dictGet d k := by
  unfold dictGet
  rw [@List.find?_cons_of_neg _ (fun r => r.1 == k) q d (by simp [hq])]

theorem dictGet_append_single_self (d : List (String × String)) (k v : String)
    (h : hasKey d k = false) : dictGet (d ++ [(k, v)]) k = some v := by
  induction d with
  | nil => exact dictGet_cons_pos (k, v) [] k (by simp)
  | cons p d ih =>
    simp only [hasKey, List.any_cons, Bool.or_eq_false_iff] at h
    rw [List.cons_append, dictGet_cons_neg p _ k h.1]
    exact ih h.2

theorem dictGet_map_replace_self (d : List (String × String)) (k v : String)
    (h : hasKey d k = true) :
    dictGet (d.map (fun p => if p.1 == k then (k, v) else p)) k = some v := by
  induction d with
  | nil => simp [hasKey] at h
  | cons p d ih =>
    by_cases hp : (p.1 == k) = true
    · simp only [List.map_cons, if_pos hp]
      exact dictGet_cons_pos (k, v) _ k (by simp)
    · rw [Bool.not_eq_true] at hp
      simp only [hasKey, List.any_cons, hp, Bool.false_or] at h
      simp only [List.map_cons, hp, Bool.false_eq_true, if_false]
      rw [dictGet_cons_neg p _ k hp]
      exact ih h

theorem dictGet_dictSet_self (d : List (String × String)) (k v : String) :
    dictGet (dictSet d k v) k = some v := by
  unfold dictSet
  by_cases h : hasKey d k = true
  · rw [if_pos h]
    exact dictGet_map_replace_self d k v h
  · rw [Bool.not_eq_true] at h
    rw [if_neg (by simp [h])]
    exact dictGet_append_single_self d k v h

theorem dictGet_map_replace_ne (d : List (String × String)) (k v k' : String)
    (h : k' ≠ k) :
    dictGet (d.map (fun p => if p.1 == k then (k, v) else p)) k' = dictGet d k' := by
  induction d with
  | nil => rfl
  | cons p d ih =>
    by_cases hp : (p.1 == k) = true
    · have hpk : p.1 = k := by simpa using hp
      simp only [List.map_cons, if_pos hp]
      rw [dictGet_cons_neg (k, v) _ k' (by simp [Ne.symm h]),
        dictGet_cons_neg p _ k' (by simp [hpk, Ne.symm h])]
      exact ih
    · rw [Bool.not_eq_true] at hp
      simp only [List.map_cons, hp, Bool.false_eq_true, if_false]
      by_cases hpk : (p.1 == k') = true
      · rw [dictGet_cons_pos p _ k' hpk, dictGet_cons_pos p _ k' hpk]
      · rw [Bool.not_eq_true] at hpk
        rw [dictGet_cons_neg p _ k' hpk, dictGet_cons_neg p _ k' hpk]
        exact ih

theorem dictGet_append_single_ne (d : List (String × String)) (k v k' : String)
    (h : k' ≠ k) : dictGet (d ++ [(k, v)]) k' = dictGet d k' := by
  induction d with
  | nil =>
    rw [List.nil_append, dictGet_cons_neg (k, v) [] k' (by simp [Ne.symm h])]
  | cons p d ih =>
    rw [List.cons_append]
    by_cases hpk : (p.1 == k') = true
    · rw [dictGet_cons_pos p _ k' hpk, dictGet_cons_pos p _ k' hpk]
    · rw [Bool.not_eq_true] at hpk
      rw [dictGet_cons_neg p _ k' hpk, dictGet_cons_neg p _ k' hpk]
      exact ih

theorem dictGet_dictSet_ne (d : List (String × String)) (k v k' : String)
    (h : k' ≠ k) : dictGet (dictSet d k v) k' = dictGet d k' := by
  unfold dictSet
  split
  · exact dictGet_map_replace_ne d k v k' h
  · exact dictGet_append_single_ne d k v k' h

theorem dictGet_dictDel_ne (d : List (String × String)) (k k' : String)
    (h : k' ≠ k) : dictGet (dictDel d k) k' = dictGet d k' := by
  induction d with
  | nil => rfl
  | cons p d ih =>
    by_cases hp : (p.1 == k) = true
    · have hpk : p.1 = k := by simpa using hp
      simp only [dictDel, List.filter_cons, hp, Bool.not_true, Bool.false_eq_true, if_false]
      rw [show List.filter (fun p => !(p.1 == k)) d = dictDel d k from rfl, ih]
      rw [dictGet_cons_neg p _ k' (by simp [hpk, Ne.symm h])]
    · rw [Bool.not_eq_true] at hp
      simp only [dictDel, List.filter_cons, hp, Bool.not_false, if_pos]
      rw [show List.filter (fun p => !(p.1 == k)) d = dictDel d k from rfl]
      by_cases hpk : (p.1 == k') = true
      · rw [dictGet_cons_pos p _ k' hpk, dictGet_cons_pos p _ k' hpk]
      · rw [Bool.not_eq_true] at hpk
        rw [dictGet_cons_neg p _ k' hpk, dictGet_cons_neg p _ k' hpk]
        exact ih

theorem dictGet_dictDel_self (d : List (String × String)) (k : String) :
    dictGet (dictDel d k) k = none := by
  induction d with
  | nil => rfl
  | cons p d ih =>
    by_cases hp : (p.1 == k) = true
    · simp only [dictDel, List.filter_cons, hp, Bool.not_true, Bool.false_eq_true, if_false]
      rw [show List.filter (fun p => !(p.1 == k)) d = dictDel d k from rfl]
      exact ih
    · rw [Bool.not_eq_true] at hp
      simp only [dictDel, List.filter_cons, hp, Bool.not_false, if_pos]
      rw [show List.filter (fun p => !(p.1 == k)) d = dictDel d k from rfl]
      rw [dictGet_cons_neg p _ k hp]
      exact ih

theorem mem_dictSet (d : List (String × String)) (k v : String) :
    ∀ kv ∈ dictSet d k v, kv ∈ d ∨ kv = (k, v) := by
  unfold dictSet
  split
  · intro kv hkv
    rcases List.mem_map.mp hkv with ⟨p, hp, heq⟩
    by_cases hc : (p.1 == k) = true
    · rw [if_pos hc] at heq
      exact Or.inr heq.symm
    · rw [Bool.not_eq_true] at hc
      rw [hc] at heq
      simp only [Bool.false_eq_true, if_false] at heq
      exact Or.inl (heq ▸ hp)
  · intro kv hkv
    rcases List.mem_append.mp hkv with hl | hr
    · exact Or.inl hl
    · exact Or.inr (List.mem_singleton.mp hr)

theorem dictSet_append_left (a b : List (String × String)) (k v : String)
    (h : hasKey a k = false) :
    dictSet (a ++ b) k v = a ++ dictSet b k v := by
  have ha : ∀ p ∈ a, (p.1 == k) = false := by
    intro p hp
    have := List.any_eq_false.mp h p hp
    simpa using this
  unfold dictSet
  rw [show hasKey (a ++ b) k = (hasKey a k || hasKey b k) from List.any_append]
  rw [h, Bool.false_or]
  cases hb : hasKey b k with
  | true =>
    simp only [if_pos, List.map_append]
    have hmap : List.map (fun p => if (p.1 == k) = true then (k, v) else p) a
        = List.map id a := by
      apply List.map_congr_left
      intro p hp
      rw [ha p hp]
      simp
    rw [hmap, List.map_id]
  | false =>
    simp only [Bool.false_eq_true, if_false, List.append_assoc]

/-- C4: starting from an empty persisted registry, deployment
`edge-lab` resolves to slot 1 (base id `1 * 10000 = 10000`, written
back), and provisioning VM spec `{id: 1, name: "router", template:
"tmpl-a"}` with default network token `5` creates bridge `vmbr10005`
(absent on the host, auto-confirmed), clones the template to platform id
`10001`, and applies options naming the VM `edge-lab-router` with `net0`
bound to `vmbr10005`. -/
theorem c4_end_to_end_scenario :
    mainRegistry "pve" (regDesc []) "edge-lab" false
      = ⟨.ok (.nat 1), [regYaml [("edge-lab", 1)]]⟩
  ∧ create_vm ⟨[(900, "tmpl-a")], []⟩ (fun _ => true) (1 * 10000)
      ⟨1, "router", some "tmpl-a", [], []⟩ ⟨"edge-lab", [], [.num 5]⟩
      ⟨"virtio", true, false, false⟩
    = ⟨[.createNetwork "vmbr10005" "Network is part of deployment edge-lab",
        .commitNetworks, .cloneVm 900 10001,
        .setOptions 10001 [("name", "edge-lab-router"),
          ("net0", "virtio,bridge=vmbr10005")]],
       none⟩ := ⟨rfl, rfl⟩

theorem destroyGo_shape (fuel : Nat) :
    ∀ (i : Nat) (statuses : Nat → String), ∃ n, n ≤ fuel ∧
      destroyGo statuses i fuel = List.replicate n DAct.stop ++ [DAct.delete] := by
  induction fuel with
  | zero => exact fun i st => ⟨0, Nat.le_refl 0, rfl⟩
  | succ fuel ih =>
    intro i st
    by_cases h : i < 30 ∧ st i = "running"
    · obtain ⟨n, hn, he⟩ := ih (i + 1) st
      refine ⟨n + 1, by omega, ?_⟩
      simp only [destroyGo, if_pos h, he, List.replicate_succ, List.cons_append]
    · exact ⟨0, by omega, by simp only [destroyGo, if_neg h]; rfl⟩

/-- C9: for every sequence of status responses the destruction sequence
terminates with a bounded trace: some number `n ≤ 30` of stop commands
followed by exactly one delete; in particular a VM that keeps reporting
`running` receives 30 stop attempts and is then deleted anyway
(best-effort delete after the retries are exhausted). -/
theorem c9_destroy_bounded_then_delete :
    (∀ statuses : Nat → String, ∃ n, n ≤ 30 ∧
      destroyTrace statuses = List.replicate n DAct.stop ++ [DAct.delete])
  ∧ destroyTrace (fun _ => "running")
      = List.replicate 30 DAct.stop ++ [DAct.delete] :=
  ⟨fun st => destroyGo_shape 30 0 st, rfl⟩

/-- C10: evaluation at a failing input for the unbound-network sweep.
The host bridge `vmbridge` is referenced by a VM option
`net0=virtio,bridge=vmbridge` (second conjunct), yet the computed
unbound set still contains it: `p.strip('bridge=')` removes the
characters `b,r,i,d,g,e,=` from both ends, so the reference is recorded
as `vm` instead of `vmbridge`. -/
theorem c10_strip_misparse :
    get_unbound_networks ["vmbridge"] [[("net0", "virtio,bridge=vmbridge")]]
      = ["vmbridge"]
  ∧ isBound "vmbridge" ("net0", "virtio,bridge=vmbridge") = true
  ∧ pyStrip "bridge=vmbridge" "bridge=" = "vm" := ⟨rfl, rfl, rfl⟩

/-- C5 counterexample: with merged options already holding `net0` and
`net2` (but not `net1`), attaching two new networks assigns indices 1
and 2: the second assignment lands on the pre-existing `net2` option and
overwrites it (the `vmbr2` binding disappears from the applied options),
so the claimed skipping of every present index does not hold - only
indices below the first gap are skipped. -/
theorem c5_counterexample_overwrite :
    dictGet [("net0", "virtio,bridge=vmbr1"), ("net2", "virtio,bridge=vmbr2")] "net2"
      = some "virtio,bridge=vmbr2"
  ∧ create_vm ⟨[(7, "t")], ["vmbr3", "vmbr4", "vmbr1", "vmbr2"]⟩ (fun _ => true) 0
      ⟨1, "x", some "t",
        [("net0", "virtio,bridge=vmbr1"), ("net2", "virtio,bridge=vmbr2")],
        [.num 3, .num 4]⟩
      ⟨"d", [], []⟩ ⟨"virtio", true, false, false⟩
    = ⟨[.cloneVm 7 1, .setOptions 1
        [("net0", "virtio,bridge=vmbr1"), ("net2", "virtio,bridge=vmbr4"),
         ("name", "d-x"), ("net1", "virtio,bridge=vmbr3")]], none⟩
  ∧ countBound [("net0", "virtio,bridge=vmbr1"), ("net2", "virtio,bridge=vmbr4"),
      ("name", "d-x"), ("net1", "virtio,bridge=vmbr3")] "vmbr2" = 0 :=
  ⟨rfl, rfl, rfl⟩

/-- C6 counterexample: merged options that already carry two `net*`
attachments bound to the same bridge pass through the provisioner
untouched, so the universally claimed "never contains two attachments to
one bridge" fails for such inputs (the code only avoids adding new
duplicates). -/
theorem c6_counterexample_preexisting_duplicate :
    create_vm ⟨[(7, "t")], ["vmbrA"]⟩ (fun _ => true) 0
      ⟨1, "x", some "t",
        [("net0", "virtio,bridge=vmbrA"), ("net1", "virtio,bridge=vmbrA")], []⟩
      ⟨"d", [], []⟩ ⟨"virtio", true, false, false⟩
    = ⟨[.cloneVm 7 1, .setOptions 1
        [("net0", "virtio,bridge=vmbrA"), ("net1", "virtio,bridge=vmbrA"),
         ("name", "d-x")]], none⟩
  ∧ countBound [("net0", "virtio,bridge=vmbrA"), ("net1", "virtio,bridge=vmbrA"),
      ("name", "d-x")] "vmbrA" = 2 := ⟨rfl, rfl⟩

theorem b64d_b64c : ∀ n, n < 64 → b64d (b64c n) = some n := by decide

theorem b64c_ne_pad : ∀ n, n < 64 → ((b64c n == '=') = false) := by decide

theorem b64_roundtrip_aux :
    ∀ (n : Nat) (bs : List Nat), bs.length ≤ n → (∀ x ∈ bs, x < 256) →
      b64decodeList (b64encodeList bs) = some bs := by
  intro n
  induction n with
  | zero =>
    intro bs hl _
    have hnil : bs = [] := List.eq_nil_of_length_eq_zero (Nat.le_zero.mp hl)
    subst hnil
    rfl
  | succ n ih =>
    intro bs hl hb
    match bs with
    | [] => rfl
    | [a] =>
      have ha : a < 256 := hb a (by simp)
      have h1 : b64d (b64c (a / 4)) = some (a / 4) := b64d_b64c _ (by omega)
      have h2 : b64d (b64c (a % 4 * 16)) = some (a % 4 * 16) := b64d_b64c _ (by omega)
      simp [b64encodeList, b64decodeList, h1, h2]
      omega
    | [a, b] =>
      have ha : a < 256 := hb a (by simp)
      have hbb : b < 256 := hb b (by simp)
      have h1 : b64d (b64c (a / 4)) = some (a / 4) := b64d_b64c _ (by omega)
      have h2 : b64d (b64c (a % 4 * 16 + b / 16)) = some (a % 4 * 16 + b / 16) :=
        b64d_b64c _ (by omega)
      have h3 : b64d (b64c (b % 16 * 4)) = some (b % 16 * 4) := b64d_b64c _ (by omega)
      have h4 : ((b64c (b % 16 * 4) == '=') = false) := b64c_ne_pad _ (by omega)
      simp [b64encodeList, b64decodeList, h1, h2, h3, h4]
      omega
    | a :: b :: c :: rest =>
      have ha : a < 256 := hb a (by simp)
      have hbb : b < 256 := hb b (by simp)
      have hc : c < 256 := hb c (by simp)
      have h1 : b64d (b64c (a / 4)) = some (a / 4) := b64d_b64c _ (by omega)
      have h2 : b64d (b64c (a % 4 * 16 + b / 16)) = some (a % 4 * 16 + b / 16) :=
        b64d_b64c _ (by omega)
      have h3 : b64d (b64c (b % 16 * 4 + c / 64)) = some (b % 16 * 4 + c / 64) :=
        b64d_b64c _ (by omega)
      have h4 : b64d (b64c (c % 64)) = some (c % 64) := b64d_b64c _ (by omega)
      have h5 : ((b64c (b % 16 * 4 + c / 64) == '=') = false) := b64c_ne_pad _ (by omega)
      have h6 : ((b64c (c % 64) == '=') = false) := b64c_ne_pad _ (by omega)
      have hrest : b64decodeList (b64encodeList rest) = some rest := by
        apply ih rest (by simp at hl; omega)
        intro x hx
        exact hb x (by simp [hx])
      simp [b64encodeList, b64decodeList, h1, h2, h3, h4, h5, h6, hrest]
      omega

/-- Round trip of the embedded base64 encoder against the
specification-side decoder, on byte lists. -/
theorem b64_roundtrip (bs : List Nat) (h : ∀ x ∈ bs, x < 256) :
    b64decodeList (b64encodeList bs) = some bs :=
  b64_roundtrip_aux bs.length bs (Nat.le_refl _) h

theorem netKey_ne_of_head (s : String) (hs : s.data.headD ' ' ≠ 'n') :
    ∀ i, netKey i ≠ s := by
  intro i h
  apply hs
  have hd := congrArg String.data h
  rw [show netKey i = "net" ++ toString i from rfl, String.data_append] at hd
  rw [← hd]
  rfl

theorem netKey_ne_smbios1 : ∀ i, netKey i ≠ "smbios1" :=
  netKey_ne_of_head _ (by decide)

theorem netKey_ne_serial : ∀ i, netKey i ≠ "serial" :=
  netKey_ne_of_head _ (by decide)

theorem addNetworks_dictGet_preserved (nicType depName : String) (force : Bool)
    (con : String → Bool) (base : Nat) (key : String)
    (hkey : ∀ i, netKey i ≠ key) :
    ∀ (nets : List NetTok) (acc : NetAcc),
      dictGet ((addNetworks nicType depName force con base acc nets).opts) key
        = dictGet acc.opts key := by
  intro nets
  induction nets with
  | nil => intro acc; rfl
  | cons tok rest ih =>
    intro acc
    simp only [addNetworks]
    cases hnn : netName base tok with
    | none => rfl
    | some nname =>
      by_cases hmem : (acc.hostNets.contains nname) = true
      · simp only [hmem, if_true]
        by_cases hadd : (acc.opts.any (isBound (bridgeOf nname))) = true
        · simp only [hadd, if_true]
          rw [ih]
        · rw [Bool.not_eq_true] at hadd
          simp only [hadd, Bool.false_eq_true, if_false]
          rw [ih]
          exact dictGet_dictSet_ne _ _ _ _ (fun he => hkey acc.idx he.symm)
      · rw [Bool.not_eq_true] at hmem
        simp only [hmem, Bool.false_eq_true, if_false]
        by_cases hcon : (force || con ("Network " ++ nname ++ " does not exist. Create it")) = true
        · simp only [hcon, if_true]
          by_cases hadd : (acc.opts.any (isBound (bridgeOf nname))) = true
          · simp only [hadd, if_true]
            rw [ih]
          · rw [Bool.not_eq_true] at hadd
            simp only [hadd, Bool.false_eq_true, if_false]
            rw [ih]
            exact dictGet_dictSet_ne _ _ _ _ (fun he => hkey acc.idx he.symm)
        · rw [Bool.not_eq_true] at hcon
          simp only [hcon, Bool.false_eq_true, if_false]

theorem addNetworks_acts_mem (nicType depName : String) (force : Bool)
    (con : String → Bool) (base : Nat) :
    ∀ (nets : List NetTok) (acc : NetAcc) (a : RemoteAction),
      a ∈ (addNetworks nicType depName force con base acc nets).acts →
        a ∈ acc.acts ∨ ∃ nm ds, a = RemoteAction.createNetwork nm ds := by
  intro nets
  induction nets with
  | nil => exact fun acc a h => Or.inl h
  | cons tok rest ih =>
    intro acc a h
    simp only [addNetworks] at h
    cases hnn : netName base tok with
    | none => rw [hnn] at h; exact Or.inl h
    | some nname =>
      rw [hnn] at h
      by_cases hmem : (acc.hostNets.contains nname) = true
      · simp only [hmem, if_true] at h
        by_cases hadd : (acc.opts.any (isBound (bridgeOf nname))) = true
        · simp only [hadd, if_true] at h
          exact ih { acc with idx := acc.idx + 1 } a h
        · rw [Bool.not_eq_true] at hadd
          simp only [hadd, Bool.false_eq_true, if_false] at h
          exact ih { acc with
            opts := dictSet acc.opts (netKey acc.idx)
              (nicType ++ ",bridge=" ++ bridgeOf nname),
            idx := acc.idx + 1 } a h
      · rw [Bool.not_eq_true] at hmem
        simp only [hmem, Bool.false_eq_true, if_false] at h
        by_cases hcon : (force || con ("Network " ++ nname ++ " does not exist. Create it")) = true
        · simp only [hcon, if_true] at h
          by_cases hadd :
              ((acc.opts.any (isBound (bridgeOf nname)))) = true
          · simp only [hadd, if_true] at h
            rcases ih _ a h with hin | hcr
            · rcases List.mem_append.mp hin with hin1 | hin2
              · exact Or.inl hin1
              · exact Or.inr ⟨nname, _, List.mem_singleton.mp hin2⟩
            · exact Or.inr hcr
          · rw [Bool.not_eq_true] at hadd
            simp only [hadd, Bool.false_eq_true, if_false] at h
            rcases ih _ a h with hin | hcr
            · rcases List.mem_append.mp hin with hin1 | hin2
              · exact Or.inl hin1
              · exact Or.inr ⟨nname, _, List.mem_singleton.mp hin2⟩
            · exact Or.inr hcr
        · rw [Bool.not_eq_true] at hcon
          simp only [hcon, Bool.false_eq_true, if_false] at h
          exact Or.inl h

theorem mem_acts1 (nicType depName : String) (force : Bool) (con : String → Bool)
    (base : Nat) (nets : List NetTok) (st : NetAcc) (hst : st.acts = []) (b : Bool) :
    ∀ a ∈ (addNetworks nicType depName force con base st nets).acts
        ++ (if b then [RemoteAction.commitNetworks] else []),
      (∃ nm ds, a = RemoteAction.createNetwork nm ds) ∨ a = RemoteAction.commitNetworks := by
  intro a h
  rcases List.mem_append.mp h with h1 | h2
  · rcases addNetworks_acts_mem nicType depName force con base nets st a h1 with hin | hcr
    · rw [hst] at hin
      exact absurd hin (List.not_mem_nil _)
    · exact Or.inl hcr
  · cases b with
    | true => exact Or.inr (by simpa using h2)
    | false => exact absurd h2 (by simp)


/-- C8: whenever the merged options carry a `serial` template, the
options actually applied by the provisioner (the `set_options` payload)
hold an SMBIOS system-serial field whose base64 payload decodes exactly
to the rendered template string, and the raw `serial` key is absent from
them. -/
theorem c8_serial_roundtrip (host : Host) (con : String → Bool) (base : Nat)
    (vm : VmSpec) (dep : Deployment) (args : DeployArgs) (tmpl : String)
    (h1 : dictGet (mergeOpts dep.globalOptions vm.options) "serial" = some tmpl) :
    ∀ hid o, RemoteAction.setOptions hid o ∈ (create_vm host con base vm dep args).actions →
      dictGet o "smbios1" = some ("serial=" ++
          b64encode (strBytes (renderSerial tmpl (dep.name ++ "-" ++ vm.name) vm.id dep.name))
          ++ ",base64=1")
      ∧ dictGet o "serial" = none
      ∧ b64decode (b64encode (strBytes
            (renderSerial tmpl (dep.name ++ "-" ++ vm.name) vm.id dep.name)))
          = some (strBytes (renderSerial tmpl (dep.name ++ "-" ++ vm.name) vm.id dep.name)) := by
  intro hid o hmem
  have hs0 : dictGet (dictSet (dictSet (mergeOpts dep.globalOptions vm.options) "vmid"
      (toString vm.id)) "name" (dep.name ++ "-" ++ vm.name)) "serial" = some tmpl := by
    rw [dictGet_dictSet_ne _ _ _ _ (by decide), dictGet_dictSet_ne _ _ _ _ (by decide)]
    exact h1
  simp only [create_vm] at hmem
  split at hmem
  · simp at hmem
  · rename_i opts1 heq
    cases hasc : pyBytesAscii (renderSerial tmpl (dep.name ++ "-" ++ vm.name) vm.id dep.name) with
    | none =>
      have happ : applySerial (dictSet (dictSet (mergeOpts dep.globalOptions vm.options) "vmid"
          (toString vm.id)) "name" (dep.name ++ "-" ++ vm.name))
          (dep.name ++ "-" ++ vm.name) vm.id dep.name = .error .unicodeErr := by
        unfold applySerial
        split
        · rename_i hnone
          rw [hs0] at hnone
          exact absurd hnone (by simp)
        · rename_i tmpl2 hsome
          rw [hs0] at hsome
          have ht : tmpl = tmpl2 := Option.some.inj hsome
          subst ht
          rw [hasc]
      rw [happ] at heq
      exact absurd heq (by simp)
    | some bs =>
      have happ : applySerial (dictSet (dictSet (mergeOpts dep.globalOptions vm.options) "vmid"
          (toString vm.id)) "name" (dep.name ++ "-" ++ vm.name))
          (dep.name ++ "-" ++ vm.name) vm.id dep.name
          = .ok (dictSet
            (dictDel (dictSet (dictSet (mergeOpts dep.globalOptions vm.options) "vmid"
              (toString vm.id)) "name" (dep.name ++ "-" ++ vm.name)) "serial") "smbios1"
            ("serial=" ++ b64encode bs ++ ",base64=1")) := by
        unfold applySerial
        split
        · rename_i hnone
          rw [hs0] at hnone
          exact absurd hnone (by simp)
        · rename_i tmpl2 hsome
          rw [hs0] at hsome
          have ht : tmpl = tmpl2 := Option.some.inj hsome
          subst ht
          rw [hasc]
      have hopts1 : opts1 = dictSet
          (dictDel (dictSet (dictSet (mergeOpts dep.globalOptions vm.options) "vmid"
            (toString vm.id)) "name" (dep.name ++ "-" ++ vm.name)) "serial") "smbios1"
          ("serial=" ++ b64encode bs ++ ",base64=1") := by
        rw [happ] at heq
        exact (Except.ok.inj heq).symm
      have hext : ((renderSerial tmpl (dep.name ++ "-" ++ vm.name) vm.id dep.name).data.all
          (fun c => c.toNat < 128)) = true
          ∧ strBytes (renderSerial tmpl (dep.name ++ "-" ++ vm.name) vm.id dep.name) = bs := by
        unfold pyBytesAscii at hasc
        split at hasc
        · exact ⟨by assumption, Option.some.inj hasc⟩
        · exact absurd hasc (by simp)
      subst hopts1
      have hround : b64decode (b64encode (strBytes
            (renderSerial tmpl (dep.name ++ "-" ++ vm.name) vm.id dep.name)))
          = some (strBytes (renderSerial tmpl (dep.name ++ "-" ++ vm.name) vm.id dep.name)) := by
        apply b64_roundtrip
        intro x hx
        rcases List.mem_map.mp hx with ⟨ch, hch, hxe⟩
        have hb := List.all_eq_true.mp hext.1 ch hch
        have hlt : ch.toNat < 128 := of_decide_eq_true hb
        omega
      split at hmem
      · rcases addNetworks_acts_mem args.nicType dep.name args.force con base
            (dep.globalNetworks ++ vm.networks) _ _ hmem with hin | ⟨nm, ds, habs⟩
        · simp at hin
        · exact RemoteAction.noConfusion habs
      · split at hmem
        · rcases mem_acts1 args.nicType dep.name args.force con base
              (dep.globalNetworks ++ vm.networks) _ rfl _ _ hmem with
            ⟨nm, ds, habs⟩ | habs
          · exact RemoteAction.noConfusion habs
          · exact RemoteAction.noConfusion habs
        · split at hmem
          · rcases mem_acts1 args.nicType dep.name args.force con base
                (dep.globalNetworks ++ vm.networks) _ rfl _ _ hmem with
              ⟨nm, ds, habs⟩ | habs
            · exact RemoteAction.noConfusion habs
            · exact RemoteAction.noConfusion habs
          · split at hmem
            · split at hmem
              · split at hmem
                · rcases List.mem_append.mp hmem with hm2 | hstart
                  · rcases List.mem_append.mp hm2 with hin | hmid
                    · rcases mem_acts1 args.nicType dep.name args.force con base
                          (dep.globalNetworks ++ vm.networks) _ rfl _ _ hin with
                        ⟨nm, ds, habs⟩ | habs
                      · exact RemoteAction.noConfusion habs
                      · exact RemoteAction.noConfusion habs
                    · simp only [List.mem_cons, List.mem_singleton] at hmid
                      rcases hmid with hdes | hclone | hset | hnil
                      · exact RemoteAction.noConfusion hdes
                      · exact RemoteAction.noConfusion hclone
                      · have ho := (RemoteAction.setOptions.inj hset).2
                        refine ⟨?_, ?_, hround⟩
                        · rw [ho, dictGet_dictDel_ne _ _ _ (by decide),
                            addNetworks_dictGet_preserved args.nicType dep.name args.force con
                              base "smbios1" netKey_ne_smbios1]
                          dsimp only
                          rw [dictGet_dictSet_self, hext.2]
                        · rw [ho, dictGet_dictDel_ne _ _ _ (by decide),
                            addNetworks_dictGet_preserved args.nicType dep.name args.force con
                              base "serial" netKey_ne_serial]
                          dsimp only
                          rw [dictGet_dictSet_ne _ _ _ _ (by decide)]
                          exact dictGet_dictDel_self _ _
                      · exact absurd hnil (by simp)
                  · split at hstart
                    · rcases List.mem_singleton.mp hstart with hst
                      exact RemoteAction.noConfusion hst
                    · exact absurd hstart (by simp)
                · rcases mem_acts1 args.nicType dep.name args.force con base
                      (dep.globalNetworks ++ vm.networks) _ rfl _ _ hmem with
                    ⟨nm, ds, habs⟩ | habs
                  · exact RemoteAction.noConfusion habs
                  · exact RemoteAction.noConfusion habs
              · rcases mem_acts1 args.nicType dep.name args.force con base
                    (dep.globalNetworks ++ vm.networks) _ rfl _ _ hmem with
                  ⟨nm, ds, habs⟩ | habs
                · exact RemoteAction.noConfusion habs
                · exact RemoteAction.noConfusion habs
            · rcases List.mem_append.mp hmem with hm2 | hstart
              · rcases List.mem_append.mp hm2 with hin | hmid
                · rcases mem_acts1 args.nicType dep.name args.force con base
                      (dep.globalNetworks ++ vm.networks) _ rfl _ _ hin with
                    ⟨nm, ds, habs⟩ | habs
                  · exact RemoteAction.noConfusion habs
                  · exact RemoteAction.noConfusion habs
                · simp only [List.mem_cons, List.mem_singleton] at hmid
                  rcases hmid with hclone | hset | hnil
                  · exact RemoteAction.noConfusion hclone
                  · have ho := (RemoteAction.setOptions.inj hset).2
                    refine ⟨?_, ?_, hround⟩
                    · rw [ho, dictGet_dictDel_ne _ _ _ (by decide),
                        addNetworks_dictGet_preserved args.nicType dep.name args.force con
                          base "smbios1" netKey_ne_smbios1]
                      dsimp only
                      rw [dictGet_dictSet_self, hext.2]
                    · rw [ho, dictGet_dictDel_ne _ _ _ (by decide),
                        addNetworks_dictGet_preserved args.nicType dep.name args.force con
                          base "serial" netKey_ne_serial]
                      dsimp only
                      rw [dictGet_dictSet_ne _ _ _ _ (by decide)]
                      exact dictGet_dictDel_self _ _
                  · exact absurd hnil (by simp)
              · split at hstart
                · rcases List.mem_singleton.mp hstart with hst
                  exact RemoteAction.noConfusion hst
                · exact absurd hstart (by simp)

theorem c8_serial_roundtrip_witness :
    dictGet [("name", "edge-lab-router"), ("smbios1", "serial=U04tMS1lZGdlLWxhYg==,base64=1")]
        "smbios1"
      = some ("serial=" ++
          b64encode (strBytes (renderSerial "SN-{id}-{deployment}" "edge-lab-router" 1 "edge-lab"))
          ++ ",base64=1")
    ∧ dictGet [("name", "edge-lab-router"), ("smbios1", "serial=U04tMS1lZGdlLWxhYg==,base64=1")]
        "serial" = none
    ∧ b64decode (b64encode (strBytes
          (renderSerial "SN-{id}-{deployment}" "edge-lab-router" 1 "edge-lab")))
        = some (strBytes (renderSerial "SN-{id}-{deployment}" "edge-lab-router" 1 "edge-lab")) :=
  c8_serial_roundtrip ⟨[(900, "tmpl-a")], []⟩ (fun _ => true) 10000
    ⟨1, "router", some "tmpl-a", [("serial", "SN-{id}-{deployment}")], []⟩
    ⟨"edge-lab", [], []⟩ ⟨"virtio", true, false, false⟩ "SN-{id}-{deployment}" rfl
    10001 [("name", "edge-lab-router"), ("smbios1", "serial=U04tMS1lZGdlLWxhYg==,base64=1")]
    (by decide)

/-- C7: a VM is destroyed during provisioning only under the force-delete
flag and only when the existing VM at the target platform id carries
exactly the name that would be created (first conjunct); at an id
occupied by a differently-named VM, force-delete fails fatally with the
name-mismatch error and performs no remote call at all (second
conjunct); on an exact name match the existing VM is destroyed and
creation proceeds with the clone (third conjunct). -/
theorem c7_force_delete_name_guard :
    (∀ (host : Host) (con : String → Bool) (base : Nat) (vm : VmSpec)
       (dep : Deployment) (args : DeployArgs) (j : Nat),
      RemoteAction.destroyVm j ∈ (create_vm host con base vm dep args).actions →
        args.forceDelete = true ∧ j = base + vm.id
        ∧ (host.vms.find? (fun p => p.1 == base + vm.id)).map (fun p => p.2)
            = some (dep.name ++ "-" ++ vm.name))
  ∧ create_vm ⟨[(900, "tmpl-a"), (10001, "other-vm")], []⟩ (fun _ => true) 10000
      ⟨1, "router", some "tmpl-a", [], []⟩ ⟨"edge-lab", [], []⟩ ⟨"virtio", true, true, false⟩
    = ⟨[], some (.fatal "VM names do not match. Do not delete old VM: other-vm")⟩
  ∧ create_vm ⟨[(900, "tmpl-a"), (10001, "edge-lab-router")], []⟩ (fun _ => true) 10000
      ⟨1, "router", some "tmpl-a", [], []⟩ ⟨"edge-lab", [], []⟩ ⟨"virtio", true, true, false⟩
    = ⟨[.destroyVm 10001, .cloneVm 900 10001, .setOptions 10001 [("name", "edge-lab-router")]],
       none⟩ := by
  refine ⟨?_, rfl, rfl⟩
  intro host con base vm dep args j hmem
  simp only [create_vm] at hmem
  split at hmem
  · simp at hmem
  · split at hmem
    · rcases addNetworks_acts_mem args.nicType dep.name args.force con base
          (dep.globalNetworks ++ vm.networks) _ _ hmem with hin | ⟨nm, ds, habs⟩
      · simp at hin
      · exact RemoteAction.noConfusion habs
    · split at hmem
      · rcases mem_acts1 args.nicType dep.name args.force con base
            (dep.globalNetworks ++ vm.networks) _ rfl _ _ hmem with ⟨nm, ds, habs⟩ | habs
        · exact RemoteAction.noConfusion habs
        · exact RemoteAction.noConfusion habs
      · split at hmem
        · rcases mem_acts1 args.nicType dep.name args.force con base
              (dep.globalNetworks ++ vm.networks) _ rfl _ _ hmem with ⟨nm, ds, habs⟩ | habs
          · exact RemoteAction.noConfusion habs
          · exact RemoteAction.noConfusion habs
        · split at hmem
          · rename_i old heqf
            split at hmem
            · rename_i hfd
              split at hmem
              · rename_i hname
                rcases List.mem_append.mp hmem with hm2 | hstart
                · rcases List.mem_append.mp hm2 with hin | hmid
                  · rcases mem_acts1 args.nicType dep.name args.force con base
                        (dep.globalNetworks ++ vm.networks) _ rfl _ _ hin with
                      ⟨nm, ds, habs⟩ | habs
                    · exact RemoteAction.noConfusion habs
                    · exact RemoteAction.noConfusion habs
                  · simp only [List.mem_cons, List.mem_singleton] at hmid
                    rcases hmid with hdes | hclone | hset | hnil
                    · refine ⟨hfd, (RemoteAction.destroyVm.inj hdes), ?_⟩
                      rw [heqf, Option.map_some']
                      have : old.2 = dep.name ++ "-" ++ vm.name := by simpa using hname
                      rw [this]
                    · exact RemoteAction.noConfusion hclone
                    · exact RemoteAction.noConfusion hset
                    · exact absurd hnil (by simp)
                · split at hstart
                  · rcases List.mem_singleton.mp hstart with hst
                    exact RemoteAction.noConfusion hst
                  · exact absurd hstart (by simp)
              · rcases mem_acts1 args.nicType dep.name args.force con base
                    (dep.globalNetworks ++ vm.networks) _ rfl _ _ hmem with ⟨nm, ds, habs⟩ | habs
                · exact RemoteAction.noConfusion habs
                · exact RemoteAction.noConfusion habs
            · rcases mem_acts1 args.nicType dep.name args.force con base
                  (dep.globalNetworks ++ vm.networks) _ rfl _ _ hmem with ⟨nm, ds, habs⟩ | habs
              · exact RemoteAction.noConfusion habs
              · exact RemoteAction.noConfusion habs
          · rcases List.mem_append.mp hmem with hm2 | hstart
            · rcases List.mem_append.mp hm2 with hin | hmid
              · rcases mem_acts1 args.nicType dep.name args.force con base
                    (dep.globalNetworks ++ vm.networks) _ rfl _ _ hin with ⟨nm, ds, habs⟩ | habs
                · exact RemoteAction.noConfusion habs
                · exact RemoteAction.noConfusion habs
              · simp only [List.mem_cons, List.mem_singleton] at hmid
                rcases hmid with hclone | hset | hnil
                · exact RemoteAction.noConfusion hclone
                · exact RemoteAction.noConfusion hset
                · exact absurd hnil (by simp)
            · split at hstart
              · rcases List.mem_singleton.mp hstart with hst
                exact RemoteAction.noConfusion hst
              · exact absurd hstart (by simp)

theorem c7_force_delete_name_guard_witness :
    (⟨"virtio", true, true, false⟩ : DeployArgs).forceDelete = true ∧ (10001 : Nat) = 10000 + 1
    ∧ (([(900, "tmpl-a"), (10001, "edge-lab-router")] : List (Nat × String)).find?
        (fun p => p.1 == 10000 + 1)).map (fun p => p.2) = some ("edge-lab" ++ "-" ++ "router") :=
  c7_force_delete_name_guard.1 ⟨[(900, "tmpl-a"), (10001, "edge-lab-router")], []⟩
    (fun _ => true) 10000 ⟨1, "router", some "tmpl-a", [], []⟩ ⟨"edge-lab", [], []⟩
    ⟨"virtio", true, true, false⟩ 10001 (by decide)

theorem addNetworks_opts_extends (nicType depName : String) (force : Bool)
    (con : String → Bool) (base : Nat) :
    ∀ (nets : List NetTok) (acc : NetAcc) (opts0 e0 : List (String × String)),
      acc.opts = opts0 ++ e0 →
      (∀ k, k < nets.length → hasKey opts0 (netKey (acc.idx + k)) = false) →
      ∃ e1, (addNetworks nicType depName force con base acc nets).opts = opts0 ++ e1
        ∧ ∀ kv ∈ e1, kv ∈ e0 ∨ ∃ k, k < nets.length ∧ kv.1 = netKey (acc.idx + k) := by
  intro nets
  induction nets with
  | nil =>
    intro acc opts0 e0 he hk
    exact ⟨e0, he, fun kv h => Or.inl h⟩
  | cons tok rest ih =>
    intro acc opts0 e0 he hk
    simp only [addNetworks]
    cases hnn : netName base tok with
    | none => exact ⟨e0, he, fun kv h => Or.inl h⟩
    | some nname =>
      have hk' : ∀ k, k < rest.length →
          hasKey opts0 (netKey (acc.idx + 1 + k)) = false := by
        intro k hklt
        have h2 := hk (k + 1) (by simp only [List.length_cons]; omega)
        rwa [show acc.idx + (k + 1) = acc.idx + 1 + k from by omega] at h2
      have hstep : ∀ (acc1 : NetAcc), acc1.opts = opts0 ++ e0 → acc1.idx = acc.idx →
          ∃ e1, (addNetworks nicType depName force con base
              { acc1 with
                opts := if acc1.opts.any (isBound (bridgeOf nname)) then acc1.opts
                  else dictSet acc1.opts (netKey acc1.idx)
                    (nicType ++ ",bridge=" ++ bridgeOf nname),
                idx := acc1.idx + 1 } rest).opts = opts0 ++ e1
            ∧ ∀ kv ∈ e1, kv ∈ e0
                ∨ ∃ k, k < (tok :: rest).length ∧ kv.1 = netKey (acc.idx + k) := by
        intro acc1 he1 hidx
        by_cases hadd : (acc1.opts.any (isBound (bridgeOf nname))) = true
        · simp only [hadd, if_true]
          obtain ⟨e1, hee, hmm2⟩ := ih
            ⟨acc1.opts, acc1.acts, acc1.newNet, acc1.hostNets, acc1.idx + 1, acc1.failed⟩
            opts0 e0 he1
            (fun k hklt => by
              show hasKey opts0 (netKey (acc1.idx + 1 + k)) = false
              rw [hidx]
              exact hk' k hklt)
          refine ⟨e1, hee, fun kv hkv => ?_⟩
          rcases hmm2 kv hkv with hin | ⟨k, hklt, hke⟩
          · exact Or.inl hin
          · refine Or.inr ⟨k + 1, by simp only [List.length_cons]; omega, ?_⟩
            rw [hke]
            show netKey (acc1.idx + 1 + k) = netKey (acc.idx + (k + 1))
            rw [hidx]
            congr 1
            omega
        · rw [Bool.not_eq_true] at hadd
          simp only [hadd, Bool.false_eq_true, if_false]
          have h0 : hasKey opts0 (netKey acc1.idx) = false := by
            rw [hidx]
            have := hk 0 (by simp)
            rwa [Nat.add_zero] at this
          obtain ⟨e1, hee, hmm2⟩ := ih
            ⟨dictSet acc1.opts (netKey acc1.idx) (nicType ++ ",bridge=" ++ bridgeOf nname),
              acc1.acts, acc1.newNet, acc1.hostNets, acc1.idx + 1, acc1.failed⟩
            opts0 (dictSet e0 (netKey acc1.idx) (nicType ++ ",bridge=" ++ bridgeOf nname))
            (by
              show dictSet acc1.opts (netKey acc1.idx) (nicType ++ ",bridge=" ++ bridgeOf nname)
                = opts0 ++ dictSet e0 (netKey acc1.idx) (nicType ++ ",bridge=" ++ bridgeOf nname)
              rw [he1]
              exact dictSet_append_left opts0 e0 _ _ h0)
            (fun k hklt => by
              show hasKey opts0 (netKey (acc1.idx + 1 + k)) = false
              rw [hidx]
              exact hk' k hklt)
          refine ⟨e1, hee, fun kv hkv => ?_⟩
          rcases hmm2 kv hkv with hin | ⟨k, hklt, hke⟩
          · rcases mem_dictSet e0 (netKey acc1.idx) _ kv hin with hin0 | hkveq
            · exact Or.inl hin0
            · refine Or.inr ⟨0, by simp, ?_⟩
              rw [hkveq, hidx, Nat.add_zero]
          · refine Or.inr ⟨k + 1, by simp only [List.length_cons]; omega, ?_⟩
            rw [hke]
            show netKey (acc1.idx + 1 + k) = netKey (acc.idx + (k + 1))
            rw [hidx]
            congr 1
            omega
      by_cases hmem2 : (acc.hostNets.contains nname) = true
      · simp only [hmem2, if_true]
        exact hstep acc he rfl
      · rw [Bool.not_eq_true] at hmem2
        simp only [hmem2, Bool.false_eq_true, if_false]
        by_cases hcon : (force || con ("Network " ++ nname ++ " does not exist. Create it")) = true
        · simp only [hcon, if_true]
          exact hstep { acc with
            acts := acc.acts ++
              [.createNetwork nname ("Network is part of deployment " ++ depName)],
            hostNets := acc.hostNets ++ [nname],
            newNet := true } he rfl
        · rw [Bool.not_eq_true] at hcon
          simp only [hcon, Bool.false_eq_true, if_false]
          exact ⟨e0, he, fun kv h => Or.inl h⟩

/-- C5 amended: the network loop assigns consecutive indices starting at
the first free one; when every index in the assigned window is absent
from the merged options (in particular when the pre-existing `net*`
indices form a contiguous block from 0, so the window sits past them),
no pre-existing option is overwritten: the initial options survive as a
prefix and everything added is a `net<i0 + k>` entry for some position
`k` in the network list.  (Without that hypothesis an assignment can
land on and overwrite a pre-existing index, see the counterexample.) -/
theorem c5_amended_no_overwrite_on_free_window (nicType depName : String)
    (force : Bool) (con : String → Bool) (base : Nat) (nets : List NetTok)
    (opts0 : List (String × String)) (hostNets : List String)
    (hfree : ∀ k, k < nets.length →
      hasKey opts0 (netKey (firstFreeNet opts0 + k)) = false) :
    ∃ extra, (addNetworks nicType depName force con base
        ⟨opts0, [], false, hostNets, firstFreeNet opts0, none⟩ nets).opts
        = opts0 ++ extra
      ∧ ∀ kv ∈ extra, ∃ k, k < nets.length ∧ kv.1 = netKey (firstFreeNet opts0 + k) := by
  obtain ⟨e1, hee, hmm2⟩ := addNetworks_opts_extends nicType depName force con base nets
    ⟨opts0, [], false, hostNets, firstFreeNet opts0, none⟩ opts0 []
    (by simp) hfree
  refine ⟨e1, hee, fun kv hkv => ?_⟩
  rcases hmm2 kv hkv with hin | hgood
  · exact absurd hin (List.not_mem_nil _)
  · exact hgood

theorem c5_amended_no_overwrite_on_free_window_witness :
    ∃ extra, (addNetworks "virtio" "d" true (fun _ => true) 0
        ⟨[("net0", "virtio,bridge=vmbr1")], [], false, ["vmbr3"],
          firstFreeNet [("net0", "virtio,bridge=vmbr1")], none⟩ [.num 3]).opts
        = [("net0", "virtio,bridge=vmbr1")] ++ extra
      ∧ ∀ kv ∈ extra, ∃ k, k < [NetTok.num 3].length
          ∧ kv.1 = netKey (firstFreeNet [("net0", "virtio,bridge=vmbr1")] + k) :=
  c5_amended_no_overwrite_on_free_window "virtio" "d" true (fun _ => true) 0
    [.num 3] [("net0", "virtio,bridge=vmbr1")] ["vmbr3"] (by decide)

theorem map_replace_of_no_key (d : List (String × String)) (k v : String)
    (h : hasKey d k = false) :
    d.map (fun p => if p.1 == k then (k, v) else p) = d := by
  have ha : ∀ p ∈ d, (p.1 == k) = false := fun p hp => by
    simpa using List.any_eq_false.mp h p hp
  have hmap : d.map (fun p => if p.1 == k then (k, v) else p) = d.map id := by
    apply List.map_congr_left
    intro p hp
    rw [ha p hp]
    simp
  rw [hmap, List.map_id]

theorem hasKey_false_of_not_mem_keys (d : List (String × String)) (k : String)
    (h : k ∉ d.map Prod.fst) : hasKey d k = false := by
  rw [hasKey, List.any_eq_false]
  intro p hp
  simp only [Bool.not_eq_true, beq_eq_false_iff_ne]
  intro he
  exact h (he ▸ List.mem_map_of_mem Prod.fst hp)

theorem not_mem_keys_of_hasKey_false (d : List (String × String)) (k : String)
    (h : hasKey d k = false) : k ∉ d.map Prod.fst := by
  intro hmem
  rcases List.mem_map.mp hmem with ⟨p, hp, he⟩
  have hfalse := List.any_eq_false.mp h p hp
  simp [he] at hfalse

theorem filter_length_map_replace_le (d : List (String × String)) (k v b : String)
    (hkv : isBound b (k, v) = false) :
    ((d.map (fun p => if p.1 == k then (k, v) else p)).filter (isBound b)).length
      ≤ (d.filter (isBound b)).length := by
  induction d with
  | nil => simp
  | cons p d ih =>
    rw [List.map_cons]
    by_cases hp : (p.1 == k) = true
    · rw [if_pos hp, List.filter_cons, List.filter_cons]
      simp only [hkv, Bool.false_eq_true, if_false]
      cases hbp : isBound b p with
      | true =>
        simp only [hbp, if_true, List.length_cons]
        exact Nat.le_succ_of_le ih
      | false =>
        simp only [hbp, Bool.false_eq_true, if_false]
        exact ih
    · rw [Bool.not_eq_true] at hp
      rw [if_neg (by simp [hp]), List.filter_cons, List.filter_cons]
      cases hbp : isBound b p with
      | true =>
        simp only [hbp, if_true, List.length_cons]
        exact Nat.succ_le_succ ih
      | false =>
        simp only [hbp, Bool.false_eq_true, if_false]
        exact ih

theorem countBound_dictSet_le (d : List (String × String)) (k v b : String)
    (hkv : isBound b (k, v) = false) :
    countBound (dictSet d k v) b ≤ countBound d b := by
  unfold dictSet countBound
  split
  · exact filter_length_map_replace_le d k v b hkv
  · rw [List.filter_append]
    simp [hkv]

theorem filter_length_map_replace_le_one (d : List (String × String)) (k v b : String)
    (hnd : (d.map Prod.fst).Nodup) (h0 : d.any (isBound b) = false) :
    ((d.map (fun p => if p.1 == k then (k, v) else p)).filter (isBound b)).length ≤ 1 := by
  induction d with
  | nil => simp
  | cons p d ih =>
    rw [List.map_cons]
    simp only [List.map_cons, List.nodup_cons] at hnd
    simp only [List.any_cons, Bool.or_eq_false_iff] at h0
    by_cases hp : (p.1 == k) = true
    · have hpk : p.1 = k := by simpa using hp
      have hnk : hasKey d k = false := hasKey_false_of_not_mem_keys d k (hpk ▸ hnd.1)
      rw [if_pos hp, map_replace_of_no_key d k v hnk, List.filter_cons]
      rw [show List.filter (isBound b) d = []
        from List.filter_eq_nil.mpr (List.any_eq_false.mp h0.2)]
      cases hkv : isBound b (k, v) with
      | true => simp [hkv]
      | false => simp [hkv]
    · rw [Bool.not_eq_true] at hp
      rw [if_neg (by simp [hp]), List.filter_cons]
      simp only [h0.1, Bool.false_eq_true, if_false]
      exact ih hnd.2 h0.2

theorem countBound_dictSet_one (d : List (String × String)) (k v b : String)
    (hnd : (d.map Prod.fst).Nodup) (h0 : d.any (isBound b) = false) :
    countBound (dictSet d k v) b ≤ 1 := by
  unfold dictSet countBound
  split
  · exact filter_length_map_replace_le_one d k v b hnd h0
  · rw [List.filter_append]
    rw [show List.filter (isBound b) d = []
      from List.filter_eq_nil.mpr (List.any_eq_false.mp h0)]
    rw [List.nil_append]
    exact List.length_filter_le _ _

theorem keysNodup_dictSet (d : List (String × String)) (k v : String)
    (h : (d.map Prod.fst).Nodup) : ((dictSet d k v).map Prod.fst).Nodup := by
  unfold dictSet
  split
  · have hkeys : (d.map (fun p => if p.1 == k then (k, v) else p)).map Prod.fst
        = d.map Prod.fst := by
      rw [List.map_map]
      apply List.map_congr_left
      intro p hp
      by_cases hp2 : (p.1 == k) = true
      · have : p.1 = k := by simpa using hp2
        simp [Function.comp, hp2, this]
      · rw [Bool.not_eq_true] at hp2
        simp [Function.comp, hp2]
    rw [hkeys]
    exact h
  · rename_i hnk
    rw [List.map_append, List.nodup_append]
    refine ⟨h, by simp, ?_⟩
    intro a ha hb2
    simp only [List.map_cons, List.map_nil, List.mem_singleton] at hb2
    subst hb2
    exact not_mem_keys_of_hasKey_false d a (by simpa using hnk) ha

theorem string_append_left_cancel {a b c : String} (h : a ++ b = a ++ c) : b = c := by
  have hd := congrArg String.data h
  rw [String.data_append, String.data_append] at hd
  exact String.ext (List.append_cancel_left hd)

/-- Side condition of the amended C6 claim: for a network token, the
option value the code would construct for it splits back into exactly
the NIC-type part and its `bridge=` part (true for any comma-free NIC
type and bridge name, e.g. the default `virtio`). -/
def cleanNicFor (nicType : String) (base : Nat) (tok : NetTok) : Bool :=
  ((netName base tok).map (fun nname =>
    pySplitComma (nicType ++ ",bridge=" ++ bridgeOf nname)
      == [nicType, "bridge=" ++ bridgeOf nname])).getD true

/-- C6 amended: provided the merged options hold at most one `net*`
attachment per bridge (and their keys are distinct, as Python dicts
guarantee), and the NIC type is not itself a comma-carrying or
`bridge=`-shaped token, the network loop preserves that bound: the
resulting options never hold two `net*` attachments bound to the same
bridge, because an attachment is skipped whenever its bridge is already
targeted.  (Merged options that already violate the bound pass through
unchanged, see the counterexample.) -/
theorem c6_amended_no_duplicate_bridge (nicType depName : String) (force : Bool)
    (con : String → Bool) (base : Nat) :
    ∀ (nets : List NetTok) (acc : NetAcc),
      (acc.opts.map Prod.fst).Nodup →
      (∀ b, countBound acc.opts b ≤ 1) →
      (∀ b, nicType ≠ "bridge=" ++ b) →
      (∀ tok ∈ nets, cleanNicFor nicType base tok = true) →
      ∀ b, countBound ((addNetworks nicType depName force con base acc nets).opts) b ≤ 1 := by
  intro nets
  induction nets with
  | nil => exact fun acc hnd h1 hnic hb b => h1 b
  | cons tok rest ih =>
    intro acc hnd h1 hnic hb b
    simp only [addNetworks]
    cases hnn : netName base tok with
    | none => exact h1 b
    | some nname =>
      have hparts : pySplitComma (nicType ++ ",bridge=" ++ bridgeOf nname)
          = [nicType, "bridge=" ++ bridgeOf nname] := by
        have hclean := hb tok (by simp)
        unfold cleanNicFor at hclean
        rw [hnn] at hclean
        simpa using hclean
      have hb' : ∀ tok2 ∈ rest, cleanNicFor nicType base tok2 = true :=
        fun tok2 h2 => hb tok2 (by simp [h2])
      have hstep : ∀ (acc1 : NetAcc), acc1.opts = acc.opts →
          countBound ((addNetworks nicType depName force con base
            { acc1 with
              opts := if acc1.opts.any (isBound (bridgeOf nname)) then acc1.opts
                else dictSet acc1.opts (netKey acc1.idx)
                  (nicType ++ ",bridge=" ++ bridgeOf nname),
              idx := acc1.idx + 1 } rest).opts) b ≤ 1 := by
        intro acc1 heq
        by_cases hadd : (acc1.opts.any (isBound (bridgeOf nname))) = true
        · simp only [hadd, if_true]
          exact ih ⟨acc1.opts, acc1.acts, acc1.newNet, acc1.hostNets, acc1.idx + 1, acc1.failed⟩
            (by rw [show (⟨acc1.opts, acc1.acts, acc1.newNet, acc1.hostNets, acc1.idx + 1,
                acc1.failed⟩ : NetAcc).opts = acc.opts from heq]; exact hnd)
            (fun b2 => by
              rw [show (⟨acc1.opts, acc1.acts, acc1.newNet, acc1.hostNets, acc1.idx + 1,
                acc1.failed⟩ : NetAcc).opts = acc.opts from heq]
              exact h1 b2)
            hnic hb' b
        · rw [Bool.not_eq_true] at hadd
          simp only [hadd, Bool.false_eq_true, if_false]
          apply ih ⟨dictSet acc1.opts (netKey acc1.idx)
              (nicType ++ ",bridge=" ++ bridgeOf nname),
              acc1.acts, acc1.newNet, acc1.hostNets, acc1.idx + 1, acc1.failed⟩
            ?hnd2 ?h12 hnic hb' b
          case hnd2 =>
            exact keysNodup_dictSet _ _ _ (heq ▸ hnd)
          case h12 =>
            intro b2
            show countBound (dictSet acc1.opts (netKey acc1.idx)
              (nicType ++ ",bridge=" ++ bridgeOf nname)) b2 ≤ 1
            by_cases hbb : b2 = bridgeOf nname
            · subst hbb
              exact countBound_dictSet_one _ _ _ _ (heq ▸ hnd) hadd
            · have hc1 : (("bridge=" ++ b2) == nicType) = false :=
                beq_eq_false_iff_ne.mpr (fun he => hnic b2 he.symm)
              have hc2 : (("bridge=" ++ b2) == ("bridge=" ++ bridgeOf nname)) = false :=
                beq_eq_false_iff_ne.mpr (fun he => hbb (string_append_left_cancel he))
              have hcont : ((pySplitComma (nicType ++ ",bridge=" ++ bridgeOf nname)).contains
                  ("bridge=" ++ b2)) = false := by
                rw [hparts, List.contains_cons, List.contains_cons]
                simp [hc1, hc2]
              have hkv : isBound b2 (netKey acc1.idx,
                  nicType ++ ",bridge=" ++ bridgeOf nname) = false := by
                show (pyStartsWith (netKey acc1.idx) "net"
                    && (pySplitComma (nicType ++ ",bridge=" ++ bridgeOf nname)).contains
                      ("bridge=" ++ b2)) = false
                rw [hcont, Bool.and_false]
              calc countBound (dictSet acc1.opts (netKey acc1.idx)
                    (nicType ++ ",bridge=" ++ bridgeOf nname)) b2
                  ≤ countBound acc1.opts b2 := countBound_dictSet_le _ _ _ _ hkv
                _ ≤ 1 := by rw [heq]; exact h1 b2
      by_cases hmem2 : (acc.hostNets.contains nname) = true
      · simp only [hmem2, if_true]
        exact hstep acc rfl
      · rw [Bool.not_eq_true] at hmem2
        simp only [hmem2, Bool.false_eq_true, if_false]
        by_cases hcon : (force || con ("Network " ++ nname ++ " does not exist. Create it")) = true
        · simp only [hcon, if_true]
          exact hstep { acc with
            acts := acc.acts ++
              [.createNetwork nname ("Network is part of deployment " ++ depName)],
            hostNets := acc.hostNets ++ [nname],
            newNet := true } rfl
        · rw [Bool.not_eq_true] at hcon
          simp only [hcon, Bool.false_eq_true, if_false]
          exact h1 b

theorem c6_amended_no_duplicate_bridge_witness :
    countBound ((addNetworks "virtio" "d" true (fun _ => true) 0
      ⟨[("net0", "virtio,bridge=vmbr1")], [], false, ["vmbr3"], 1, none⟩
      [.num 3]).opts) "vmbr3" ≤ 1 :=
  c6_amended_no_duplicate_bridge "virtio" "d" true (fun _ => true) 0
    [.num 3] ⟨[("net0", "virtio,bridge=vmbr1")], [], false, ["vmbr3"], 1, none⟩
    (by decide)
    (fun b => List.length_filter_le (isBound b) _)
    (fun b hcontra => by
      have hl := congrArg String.length hcontra
      rw [String.length_append] at hl
      have h6 : "virtio".length = 6 := rfl
      have h7 : "bridge=".length = 7 := rfl
      omega)
    (by decide) "vmbr3"
